import Mathlib

/-!
Shallow embedding of `src/support/utils/fluent-proxy.ts` (`createFluentProxy`).

The proxy wraps a target object.  Its `get` trap has three branches:
1. `prop === 'execute'` returns an async closure that drains the queue
   (`let result = target; for (const task of queue) result = await task(result);
   queue.length = 0; return result;`);
2. if `typeof target[prop] === 'function'`, it returns a closure that pushes
   `async (currentPage) => currentPage[prop].apply(currentPage, args)` onto the
   queue and returns the proxy synchronously;
3. otherwise it returns `target[prop]` directly.

Modelling choices, each traceable to a source line:
* A target is a value of an abstract type `T` together with a member-lookup
  function (`JsObject`): a member is either a plain data value or a callable.
  A missing member is `none` (JS `undefined`).
* A queued task is fully determined by the pair `(prop, args)` that the closure
  on lines 50-56 captures, so the queue is a `List (QueuedCall A)`.  The actual
  function is looked up by name on the current accumulator at drain time
  (line 52: `currentPage[prop as keyof T]`).
* Async execution is modelled in the `Except` monad: a method returns the list
  of events it emits (its side effects, the "shared log" of an instrumented
  target) and either a resolved new target value or a rejection.  Rejections
  are either values thrown by a method (`JsError.thrown`) or the `TypeError`
  the runtime raises when a non-function is applied (`JsError.notAFunction`).
* The drain is instrumented: besides the final result it reports which queued
  calls had their target method applied (`invoked`) and the concatenation of
  the events the methods emitted, in execution order.  This observes the
  control flow of the `for` loop without changing it.
* `queue.length = 0` (line 43) sits after the loop with no `try/finally`, so
  it only runs when every awaited task resolved; a rejection propagates out of
  the async closure before the queue is cleared.  `execute` below reflects
  this: the queue is reset on success only.
-/

namespace FluentProxy

/-- Rejection of a queued task's future: either a value the target method
rejected with, or the `TypeError` raised when `currentPage[prop]` is not a
function at drain time (line 52-53: `method.apply` on a non-function). -/
inductive JsError (E : Type) where
  | thrown : E → JsError E
  | notAFunction : String → JsError E
deriving DecidableEq

/-- A member of a JS object: a plain data value, or a callable that given the
call arguments and the receiver returns the events it emits and either a
resolved value or a rejection. -/
inductive Member (T A E ε : Type) where
  | value : A → Member T A E ε
  | callable : (List A → T → List ε × Except (JsError E) T) → Member T A E ε

/-- A JS-like object universe: every value of `T` exposes members by name;
`none` models `undefined` (the name is absent). -/
structure JsObject (T A E ε : Type) where
  member : T → String → Option (Member T A E ε)

/-- What a queued closure captures (lines 50-54): the operation name and the
arguments bound at call time — nothing else. -/
structure QueuedCall (A : Type) where
  prop : String
  args : List A
deriving DecidableEq

/-- The mutable state owned by one proxy instance: the wrapped target (fixed
at construction, line 30) and the operation queue (line 31). -/
structure ProxyState (T A : Type) where
  target : T
  queue : List (QueuedCall A)
deriving DecidableEq

/-- Whether an optional member is a function
(`typeof target[prop] === 'function'`, line 49). -/
def isCallableMem {T A E ε : Type} : Option (Member T A E ε) → Bool
  | some (.callable _) => true
  | _ => false

/-- Result of the proxy's `get` trap (lines 35-61): the drain closure, the
queue-and-chain closure for a callable member, or the raw member value
passed through (line 60; `none` is `undefined`). -/
inductive GetResult (T A E ε : Type) where
  | executeFn : GetResult T A E ε
  | chainFn : String → GetResult T A E ε
  | passthrough : Option (Member T A E ε) → GetResult T A E ε

/-- The `get` trap: `'execute'` is checked first (line 37), then the
function-member test against the original wrapped target (line 49), else
read-through (line 60).  The chain closure records only the property name. -/
def proxyGet {T A E ε : Type} (M : JsObject T A E ε) (st : ProxyState T A)
    (prop : String) : GetResult T A E ε :=
  if prop = "execute" then .executeFn
  else
    match M.member st.target prop with
    | some (.callable _) => .chainFn prop
    | some (.value a) => .passthrough (some (.value a))
    | none => .passthrough none

/-- One queued task run against the current accumulator (lines 51-54):
look the method up by name on `currentPage` and apply it.  Returns the calls
whose target method was actually applied (`[c]` iff the lookup found a
function), the events emitted, and the settled result.  A non-function member
makes the task's future reject with a `TypeError`. -/
def runTask {T A E ε : Type} (M : JsObject T A E ε) (c : QueuedCall A) (cur : T) :
    List (QueuedCall A) × List ε × Except (JsError E) T :=
  match M.member cur c.prop with
  | some (.callable f) => ([c], (f c.args cur).1, (f c.args cur).2)
  | some (.value _) => ([], [], .error (.notAFunction c.prop))
  | none => ([], [], .error (.notAFunction c.prop))

/-- The drain loop (lines 39-42): `let result = target; for (const task of
queue) result = await task(result)`.  Strictly sequential: each task runs on
the previous task's resolved value, and a rejection stops the loop there. -/
def drain {T A E ε : Type} (M : JsObject T A E ε) :
    T → List (QueuedCall A) → List (QueuedCall A) × List ε × Except (JsError E) T
  | cur, [] => ([], [], .ok cur)
  | cur, c :: rest =>
    match runTask M c cur with
    | (inv1, tr1, .error e) => (inv1, tr1, .error e)
    | (inv1, tr1, .ok next) =>
      (inv1 ++ (drain M next rest).1, tr1 ++ (drain M next rest).2.1,
        (drain M next rest).2.2)

/-- Everything observable about one `await handle.execute()` call: the proxy
state afterwards, the queued calls whose target method was applied, the events
the methods emitted in order, and the settled result. -/
structure ExecOutcome (T A E ε : Type) where
  state : ProxyState T A
  invoked : List (QueuedCall A)
  events : List ε
  result : Except (JsError E) T

/-- Models `await handle.execute()` (lines 38-45).  The drain starts from the
original wrapped target.  `queue.length = 0` (line 43) is reached only when
the loop finished without a rejection, so on failure the queue keeps all its
entries. -/
def execute {T A E ε : Type} (M : JsObject T A E ε) (st : ProxyState T A) :
    ExecOutcome T A E ε :=
  match drain M st.target st.queue with
  | (inv, tr, .ok v) => ⟨⟨st.target, []⟩, inv, tr, .ok v⟩
  | (inv, tr, .error e) => ⟨st, inv, tr, .error e⟩

/-- Result of the expression `handle.prop(args)`: either the handle itself was
returned synchronously after queueing (line 55), or the drain ran (`prop` was
`'execute'`), or calling the passed-through non-function value threw a
synchronous `TypeError` at the call site.  `chained` and `thrown` also carry
the invocation and event lists of the call itself, which the source produces
without ever applying a target method. -/
inductive CallResult (T A E ε : Type) where
  | chained : ProxyState T A → List (QueuedCall A) → List ε → CallResult T A E ε
  | executed : ExecOutcome T A E ε → CallResult T A E ε
  | thrown : JsError E → ProxyState T A → List (QueuedCall A) → List ε →
      CallResult T A E ε

/-- Models `handle.prop(args)`: the `get` trap runs, then the returned value
is called.  The drain closure ignores its arguments; the chain closure appends
`⟨prop, args⟩` at the tail of the queue (line 51, `queue.push`) and returns
the proxy; calling a passed-through non-function (including `undefined`)
throws synchronously and leaves the state untouched. -/
def handleCall {T A E ε : Type} (M : JsObject T A E ε) (st : ProxyState T A)
    (prop : String) (args : List A) : CallResult T A E ε :=
  match proxyGet M st prop with
  | .executeFn => .executed (execute M st)
  | .chainFn p => .chained ⟨st.target, st.queue ++ [⟨p, args⟩]⟩ [] []
  | .passthrough _ => .thrown (.notAFunction prop) st [] []

/-- Reference model following the spec's words: `execute()` threads results
"like a left fold", the accumulator starting at the original wrapped target,
each step's resolved value becoming the receiver of the next step. -/
def specLeftFold {T A E ε : Type} (M : JsObject T A E ε) (t : T)
    (q : List (QueuedCall A)) : Except (JsError E) T :=
  q.foldlM (fun cur c => (runTask M c cur).2.2) t

/-!
Concrete fixture used by witnesses and counterexamples: a tiny page-object
universe with three pages and string-labelled events (the "shared log" of the
spec's scenarios).
-/

/-- Pages of the concrete fixture. -/
inductive Pg where
  | home
  | detail
  | broken
deriving DecidableEq

/-- Member table of the fixture: `home` has navigation methods (one of which
rejects, one of which resolves to the member-less `broken` page), a data field
`title`, and its own data member named `execute` (shadowed by the proxy);
`detail` has a `back` method; `broken` has no members at all. -/
def demoMember : Pg → String → Option (Member Pg String String String)
  | .home, "goDetail" => some (.callable fun _ _ => (["goDetail"], .ok .detail))
  | .home, "stay" => some (.callable fun _ _ => (["stay"], .ok .home))
  | .home, "boom" => some (.callable fun _ _ => (["boom"], .error (.thrown "boom")))
  | .home, "toBroken" => some (.callable fun _ _ => (["toBroken"], .ok .broken))
  | .home, "title" => some (.value "Home")
  | .home, "execute" => some (.value "ownExecuteMember")
  | .detail, "back" => some (.callable fun _ _ => (["back"], .ok .home))
  | _, _ => none

/-- The fixture as a `JsObject`. -/
def demoObj : JsObject Pg String String String := ⟨demoMember⟩

/-!
Shared helper lemmas about `runTask`, `drain` and `execute`.
-/

/-- A task whose future resolved had its target method applied. -/
theorem runTask_ok_invoked {T A E ε : Type} (M : JsObject T A E ε)
    (c : QueuedCall A) (cur : T) (inv : List (QueuedCall A)) (tr : List ε) (v : T)
    (h : runTask M c cur = (inv, tr, .ok v)) : inv = [c] := by
  unfold runTask at h
  cases hm : M.member cur c.prop with
  | none => rw [hm] at h; simp at h
  | some m =>
    cases m with
    | value a => rw [hm] at h; simp at h
    | callable f =>
      rw [hm] at h
      simp only [Prod.mk.injEq] at h
      exact h.1.symm

/-- When the whole drain resolves, every queued call was invoked, in queue
order. -/
theorem drain_ok_invoked {T A E ε : Type} (M : JsObject T A E ε) :
    ∀ (q : List (QueuedCall A)) (t : T) (inv : List (QueuedCall A)) (tr : List ε)
      (v : T), drain M t q = (inv, tr, .ok v) → inv = q := by
  intro q
  induction q with
  | nil =>
    intro t inv tr v h
    unfold drain at h
    simp only [Prod.mk.injEq] at h
    exact h.1.symm
  | cons c rest ih =>
    intro t inv tr v h
    unfold drain at h
    rcases hr : runTask M c t with ⟨inv1, tr1, r⟩
    rw [hr] at h
    cases r with
    | error e => simp at h
    | ok next =>
      simp only [Prod.mk.injEq] at h
      obtain ⟨h1, h2, h3⟩ := h
      have hinv1 : inv1 = [c] := runTask_ok_invoked M c t inv1 tr1 next hr
      have hinv2 : (drain M next rest).1 = rest := by
        apply ih next (drain M next rest).1 (drain M next rest).2.1 v
        rw [← h3]
      rw [← h1, hinv1, hinv2]
      rfl

/-- Splitting a drain at a point where the prefix resolved: the suffix runs
strictly after the prefix, starting from the prefix's resolved accumulator;
its invocations and events follow the prefix's. -/
theorem drain_append_ok {T A E ε : Type} (M : JsObject T A E ε) :
    ∀ (q1 q2 : List (QueuedCall A)) (t : T) (inv1 : List (QueuedCall A))
      (tr1 : List ε) (mid : T), drain M t q1 = (inv1, tr1, .ok mid) →
      drain M t (q1 ++ q2) =
        (inv1 ++ (drain M mid q2).1, tr1 ++ (drain M mid q2).2.1,
          (drain M mid q2).2.2) := by
  intro q1
  induction q1 with
  | nil =>
    intro q2 t inv1 tr1 mid h
    unfold drain at h
    simp only [Prod.mk.injEq] at h
    obtain ⟨h1, h2, h3⟩ := h
    injection h3 with h3
    subst h3
    rw [← h1, ← h2]
    simp
  | cons c rest ih =>
    intro q2 t inv1 tr1 mid h
    unfold drain at h
    rcases hr : runTask M c t with ⟨invc, trc, r⟩
    rw [hr] at h
    cases r with
    | error e => simp at h
    | ok next =>
      simp only [Prod.mk.injEq] at h
      obtain ⟨h1, h2, h3⟩ := h
      have ihh := ih q2 next (drain M next rest).1 (drain M next rest).2.1 mid
        (by rw [← h3])
      simp only [List.cons_append, drain, hr, List.append_eq]
      rw [ihh, ← h1, ← h2]
      simp [List.append_assoc]

/-- Splitting a drain at a point where the prefix rejected: nothing of the
suffix runs, and the whole drain reports exactly the prefix's outcome. -/
theorem drain_append_err {T A E ε : Type} (M : JsObject T A E ε) :
    ∀ (q1 q2 : List (QueuedCall A)) (t : T) (inv1 : List (QueuedCall A))
      (tr1 : List ε) (e : JsError E), drain M t q1 = (inv1, tr1, .error e) →
      drain M t (q1 ++ q2) = (inv1, tr1, .error e) := by
  intro q1
  induction q1 with
  | nil =>
    intro q2 t inv1 tr1 e h
    unfold drain at h
    simp only [Prod.mk.injEq] at h
    exact absurd h.2.2 (by simp)
  | cons c rest ih =>
    intro q2 t inv1 tr1 e h
    unfold drain at h
    rcases hr : runTask M c t with ⟨invc, trc, r⟩
    rw [hr] at h
    cases r with
    | error e0 =>
      simp only [Prod.mk.injEq] at h
      obtain ⟨h1, h2, h3⟩ := h
      simp only [List.cons_append, drain, hr, List.append_eq]
      rw [h1, h2, h3]
    | ok next =>
      simp only [Prod.mk.injEq] at h
      obtain ⟨h1, h2, h3⟩ := h
      have ihh := ih q2 next (drain M next rest).1 (drain M next rest).2.1 e
        (by rw [← h3])
      simp only [List.cons_append, drain, hr, List.append_eq]
      rw [ihh, ← h1, ← h2]

/-- The settled result of `execute` is the settled result of the drain loop. -/
theorem execute_result_eq {T A E ε : Type} (M : JsObject T A E ε)
    (st : ProxyState T A) :
    (execute M st).result = (drain M st.target st.queue).2.2 := by
  unfold execute
  rcases h : drain M st.target st.queue with ⟨inv, tr, r⟩
  cases r <;> simp

/-- The invoked-calls report of `execute` is that of the drain loop. -/
theorem execute_invoked_eq {T A E ε : Type} (M : JsObject T A E ε)
    (st : ProxyState T A) :
    (execute M st).invoked = (drain M st.target st.queue).1 := by
  unfold execute
  rcases h : drain M st.target st.queue with ⟨inv, tr, r⟩
  cases r <;> simp

/-- The event log of `execute` is that of the drain loop. -/
theorem execute_events_eq {T A E ε : Type} (M : JsObject T A E ε)
    (st : ProxyState T A) :
    (execute M st).events = (drain M st.target st.queue).2.1 := by
  unfold execute
  rcases h : drain M st.target st.queue with ⟨inv, tr, r⟩
  cases r <;> simp

/-- The drain loop computes exactly the monadic left fold of the queued tasks
over the `Except` monad, the accumulator starting at the given value. -/
theorem drain_result_eq_fold {T A E ε : Type} (M : JsObject T A E ε) :
    ∀ (q : List (QueuedCall A)) (t : T),
      (drain M t q).2.2 = specLeftFold M t q := by
  intro q
  induction q with
  | nil =>
    intro t
    simp only [drain, specLeftFold, List.foldlM_nil]
    rfl
  | cons c rest ih =>
    intro t
    rcases hr : runTask M c t with ⟨invc, trc, r⟩
    cases r with
    | error e =>
      simp only [drain, hr, specLeftFold, List.foldlM_cons]
      rfl
    | ok next =>
      have := ih next
      simp only [specLeftFold] at this
      simp only [drain, hr, specLeftFold, List.foldlM_cons, this]
      rfl

/-- Component form of `execute_result_eq`, for rewriting. -/
theorem execute_result_mk {T A E ε : Type} (M : JsObject T A E ε) (t : T)
    (q : List (QueuedCall A)) :
    (execute M ⟨t, q⟩).result = (drain M t q).2.2 :=
  execute_result_eq M ⟨t, q⟩

/-- Component form of `execute_invoked_eq`, for rewriting. -/
theorem execute_invoked_mk {T A E ε : Type} (M : JsObject T A E ε) (t : T)
    (q : List (QueuedCall A)) :
    (execute M ⟨t, q⟩).invoked = (drain M t q).1 :=
  execute_invoked_eq M ⟨t, q⟩

/-- Component form of `execute_events_eq`, for rewriting. -/
theorem execute_events_mk {T A E ε : Type} (M : JsObject T A E ε) (t : T)
    (q : List (QueuedCall A)) :
    (execute M ⟨t, q⟩).events = (drain M t q).2.1 :=
  execute_events_eq M ⟨t, q⟩

/-!
Claim theorems.
-/

/-- Claim C1, counterexample: a handle over `home` with the queue
`[boom, goDetail]` (the first queued invocation rejects).  After `execute()`
rejects, the queue still holds both entries — length 2, not 0 as the claim
states — because `queue.length = 0` on line 43 of `fluent-proxy.ts` sits after
the `for` loop and is skipped when an awaited task rejects.  The subsequent
invocation `goDetail` is thus not discarded and the handle is not back in
`Idle`. -/
theorem exec_rejection_keeps_queue :
    (execute demoObj ⟨.home, [⟨"boom", []⟩, ⟨"goDetail", []⟩]⟩).result
        = .error (.thrown "boom") ∧
    (execute demoObj ⟨.home, [⟨"boom", []⟩, ⟨"goDetail", []⟩]⟩).state.queue
        = [⟨"boom", []⟩, ⟨"goDetail", []⟩] ∧
    (execute demoObj ⟨.home, [⟨"boom", []⟩, ⟨"goDetail", []⟩]⟩).state.queue.length
        = 2 :=
  ⟨rfl, rfl, rfl⟩

/-- Claim C1, amended: the target reference is preserved, and the queue is
cleared exactly when the drain resolved; when a queued invocation rejects,
draining stops (subsequent invocations do not run) but the queue keeps all of
its entries, so the handle stays in `Queuing` rather than returning to
`Idle`.  On success the state equals a freshly constructed handle's, so a
fresh chain can be queued and executed again. -/
theorem execute_queue_cleared_iff_resolved {T A E ε : Type}
    (M : JsObject T A E ε) (st : ProxyState T A) :
    (execute M st).state.target = st.target ∧
    (execute M st).state.queue =
      (match (execute M st).result with
        | .ok _ => ([] : List (QueuedCall A))
        | .error _ => st.queue) := by
  unfold execute
  rcases h : drain M st.target st.queue with ⟨inv, tr, r⟩
  cases r <;> simp

/-- Claim C2: if the queued invocations before `c` all resolved (reaching
accumulator `mid`) and `c`'s task — its target method applied — rejects with
error `e`, then `execute()` rejects with exactly that error, propagated
verbatim, and the invocations after `c` are never applied to the target: the
invoked calls are exactly the prefix plus `c`. -/
theorem execute_rejects_with_first_error {T A E ε : Type}
    (M : JsObject T A E ε) (t : T) (q1 q2 : List (QueuedCall A))
    (c : QueuedCall A) (inv1 : List (QueuedCall A)) (tr1 trc : List ε)
    (mid : T) (e : JsError E)
    (h1 : drain M t q1 = (inv1, tr1, .ok mid))
    (h2 : runTask M c mid = ([c], trc, .error e)) :
    (execute M ⟨t, q1 ++ c :: q2⟩).result = .error e ∧
    (execute M ⟨t, q1 ++ c :: q2⟩).invoked = q1 ++ [c] := by
  have hd2 : drain M mid (c :: q2) = ([c], trc, .error e) := by
    unfold drain
    rw [h2]
  have hall : drain M t (q1 ++ c :: q2) = (inv1 ++ [c], tr1 ++ trc, .error e) := by
    have h0 := drain_append_ok M q1 (c :: q2) t inv1 tr1 mid h1
    rw [hd2] at h0
    simpa using h0
  have hinv : inv1 = q1 := drain_ok_invoked M q1 t inv1 tr1 mid h1
  constructor
  · rw [execute_result_mk, hall]
  · rw [execute_invoked_mk, hall, hinv]

/-- Claim C2, witness: on the fixture, queue `[stay, boom, goDetail]` — the
second invocation rejects with `boom`; `execute()` rejects with exactly that
error and `goDetail` is never invoked. -/
theorem execute_rejects_with_first_error_witness :
    (execute demoObj ⟨.home, [⟨"stay", []⟩, ⟨"boom", []⟩, ⟨"goDetail", []⟩]⟩).result
        = .error (.thrown "boom") ∧
    (execute demoObj ⟨.home, [⟨"stay", []⟩, ⟨"boom", []⟩, ⟨"goDetail", []⟩]⟩).invoked
        = [⟨"stay", []⟩, ⟨"boom", []⟩] :=
  execute_rejects_with_first_error demoObj .home [⟨"stay", []⟩]
    [⟨"goDetail", []⟩] ⟨"boom", []⟩ [⟨"stay", []⟩] ["stay"] ["boom"] .home
    (.thrown "boom") rfl rfl

/-- Claim C3: execution is strictly sequential in insertion order.  If the
prefix `q1` of the queue resolved (reaching accumulator `mid`), then: the
invoked calls of that prefix are exactly `q1` in order; the rest of the drain
runs strictly after it — its invocations and events are appended after the
prefix's, so no later operation begins before every earlier operation's
future has resolved; and a fully resolved `execute()` invoked exactly the
whole queue in insertion order. -/
theorem execute_sequential_in_order {T A E ε : Type} (M : JsObject T A E ε)
    (t : T) (q1 q2 inv1 : List (QueuedCall A)) (tr1 : List ε) (mid : T)
    (h : drain M t q1 = (inv1, tr1, .ok mid)) :
    inv1 = q1 ∧
    drain M t (q1 ++ q2) =
      (q1 ++ (drain M mid q2).1, tr1 ++ (drain M mid q2).2.1,
        (drain M mid q2).2.2) ∧
    (execute M ⟨t, q1⟩).invoked = q1 := by
  have hinv : inv1 = q1 := drain_ok_invoked M q1 t inv1 tr1 mid h
  refine ⟨hinv, ?_, ?_⟩
  · have h0 := drain_append_ok M q1 q2 t inv1 tr1 mid h
    rw [hinv] at h0
    exact h0
  · rw [execute_invoked_mk, h]
    exact hinv

/-- Claim C3, witness: on the fixture, after the resolved prefix `[goDetail]`
the suffix `[back]` runs strictly after it, from the accumulator `detail`. -/
theorem execute_sequential_in_order_witness :
    drain demoObj .home ([⟨"goDetail", []⟩] ++ [⟨"back", []⟩]) =
      ([⟨"goDetail", []⟩] ++ (drain demoObj .detail [⟨"back", []⟩]).1,
        ["goDetail"] ++ (drain demoObj .detail [⟨"back", []⟩]).2.1,
        (drain demoObj .detail [⟨"back", []⟩]).2.2) ∧
    (execute demoObj ⟨.home, [⟨"goDetail", []⟩]⟩).invoked = [⟨"goDetail", []⟩] :=
  ⟨(execute_sequential_in_order demoObj .home [⟨"goDetail", []⟩]
      [⟨"back", []⟩] [⟨"goDetail", []⟩] ["goDetail"] .detail rfl).2.1,
    (execute_sequential_in_order demoObj .home [⟨"goDetail", []⟩]
      [⟨"back", []⟩] [⟨"goDetail", []⟩] ["goDetail"] .detail rfl).2.2⟩

/-- Claim C4: `execute()` threads results like a monadic left fold over the
queue: the accumulator starts at the original wrapped target, each task runs
on the previous task's resolved value, and the future resolves with the final
accumulator (or rejects with the first error). -/
theorem execute_is_left_fold {T A E ε : Type} (M : JsObject T A E ε)
    (st : ProxyState T A) :
    (execute M st).result = specLeftFold M st.target st.queue := by
  rw [execute_result_eq, drain_result_eq_fold]

/-- Claim C5, counterexample: on the fixture, drain `[goDetail]` from `home`;
`execute()` resolves with `detail` — the most recent target state — and
clears the queue.  A second, empty-queue `execute()` then resolves with
`home`, the original wrapped target, not with the most recent target state
`detail`: the accumulator is not persisted across drains (line 39 restarts
from `target`). -/
theorem empty_exec_not_most_recent_state :
    (execute demoObj ⟨.home, [⟨"goDetail", []⟩]⟩).result = .ok .detail ∧
    (execute demoObj ⟨.home, [⟨"goDetail", []⟩]⟩).state = ⟨.home, []⟩ ∧
    (execute demoObj ⟨.home, []⟩).result = .ok .home ∧
    Pg.home ≠ Pg.detail :=
  ⟨rfl, rfl, rfl, by decide⟩

/-- Claim C5, amended: calling `execute()` on a handle whose queue is empty is
not an error: it resolves immediately, invoking no target method and emitting
no event, and returns the original wrapped target (for a fresh handle this is
also the most recent target state; after earlier drains the accumulator is
not persisted). -/
theorem execute_empty_queue_resolves {T A E ε : Type} (M : JsObject T A E ε)
    (t : T) : execute M ⟨t, []⟩ = ⟨⟨t, []⟩, [], [], .ok t⟩ :=
  rfl

/-- Claim C6: calling a callable member name (other than the reserved
`execute`) on the handle returns the handle itself synchronously — the
`chained` outcome, not a future — with `(prop, args)` appended at the tail of
the queue and the target unchanged; no target method is applied and no event
is emitted by the call itself. -/
theorem chain_call_appends_and_returns_handle {T A E ε : Type}
    (M : JsObject T A E ε) (st : ProxyState T A) (prop : String)
    (args : List A) (h1 : prop ≠ "execute")
    (h2 : isCallableMem (M.member st.target prop) = true) :
    handleCall M st prop args =
      .chained ⟨st.target, st.queue ++ [⟨prop, args⟩]⟩ [] [] := by
  unfold handleCall proxyGet
  rw [if_neg h1]
  cases hm : M.member st.target prop with
  | none => rw [hm] at h2; simp [isCallableMem] at h2
  | some m =>
    cases m with
    | value a => rw [hm] at h2; simp [isCallableMem] at h2
    | callable f => rfl

/-- Claim C6, witness: chaining `goDetail("x")` on a fresh handle over `home`
queues `(goDetail, ["x"])` and returns the handle. -/
theorem chain_call_appends_witness :
    handleCall demoObj ⟨Pg.home, []⟩ "goDetail" ["x"] =
      .chained ⟨Pg.home, [⟨"goDetail", ["x"]⟩]⟩ [] [] :=
  chain_call_appends_and_returns_handle demoObj ⟨Pg.home, []⟩ "goDetail" ["x"]
    (by decide) rfl

/-- Claim C7: reading a member name (other than the reserved `execute`) that
is not callable on the target passes the target's member through directly —
`undefined` when absent — with no queuing and no future; the `get` trap
touches no state in this branch. -/
theorem non_callable_member_reads_through {T A E ε : Type}
    (M : JsObject T A E ε) (st : ProxyState T A) (prop : String)
    (h1 : prop ≠ "execute")
    (h2 : isCallableMem (M.member st.target prop) = false) :
    proxyGet M st prop = .passthrough (M.member st.target prop) := by
  unfold proxyGet
  rw [if_neg h1]
  cases hm : M.member st.target prop with
  | none => rfl
  | some m =>
    cases m with
    | value a => rfl
    | callable f => rw [hm] at h2; simp [isCallableMem] at h2

/-- Claim C7, witness: reading `title` on a handle over `home` yields the data
member `"Home"` directly. -/
theorem non_callable_member_reads_through_witness :
    proxyGet demoObj ⟨Pg.home, []⟩ "title" = .passthrough (some (.value "Home")) :=
  non_callable_member_reads_through demoObj ⟨Pg.home, []⟩ "title" (by decide) rfl

/-- Claim C8: calling an operation name that does not exist on the target
throws a synchronous `TypeError` at the call site (calling the passed-through
`undefined`), with the proxy state — in particular the queue — unchanged:
nothing is silently queued. -/
theorem missing_op_throws_synchronously {T A E ε : Type}
    (M : JsObject T A E ε) (st : ProxyState T A) (prop : String)
    (args : List A) (h1 : prop ≠ "execute")
    (h2 : M.member st.target prop = none) :
    handleCall M st prop args = .thrown (.notAFunction prop) st [] [] := by
  unfold handleCall proxyGet
  rw [if_neg h1, h2]

/-- Claim C8, witness: calling the nonexistent `nope()` on a handle over
`home` whose queue holds one entry throws synchronously and leaves the queue
as it was. -/
theorem missing_op_throws_synchronously_witness :
    handleCall demoObj ⟨Pg.home, [⟨"stay", []⟩]⟩ "nope" [] =
      .thrown (.notAFunction "nope") ⟨Pg.home, [⟨"stay", []⟩]⟩ [] [] :=
  missing_op_throws_synchronously demoObj ⟨Pg.home, [⟨"stay", []⟩]⟩ "nope" []
    (by decide) rfl

/-- Claim C9: the member name `execute` is reserved: the `get` trap answers it
first (line 37), for every target and every proxy state, with the proxy's own
drain closure, and calling it runs the drain.  A member of the target itself
named `execute` — the fixture's `home` has one — is unreachable through the
handle: the access never yields `chainFn` (so it cannot be queued) nor
`passthrough` (so it cannot be read through). -/
theorem execute_name_is_reserved {T A E ε : Type} (M : JsObject T A E ε)
    (st : ProxyState T A) (args : List A) :
    proxyGet M st "execute" = .executeFn ∧
    handleCall M st "execute" args = .executed (execute M st) :=
  ⟨rfl, rfl⟩

/-- Claim C10: a queued invocation stores only the name and the arguments;
the function is looked up by name on the current accumulator at drain time.
If the queue is `q1 ++ c :: q2`, the name `c.prop` was callable on the
original target when chained, the prefix `q1` resolved to accumulator `mid`,
and `c.prop` is not callable on `mid`, then `execute()` rejects with the
`TypeError` for that name and `c`'s (former) method is never applied: the
invoked calls are exactly `q1`. -/
theorem drain_time_lookup_rejects {T A E ε : Type} (M : JsObject T A E ε)
    (t : T) (q1 q2 : List (QueuedCall A)) (c : QueuedCall A)
    (inv1 : List (QueuedCall A)) (tr1 : List ε) (mid : T)
    (_h1 : isCallableMem (M.member t c.prop) = true)
    (h2 : drain M t q1 = (inv1, tr1, .ok mid))
    (h3 : isCallableMem (M.member mid c.prop) = false) :
    (execute M ⟨t, q1 ++ c :: q2⟩).result = .error (.notAFunction c.prop) ∧
    (execute M ⟨t, q1 ++ c :: q2⟩).invoked = q1 := by
  have hrun : runTask M c mid = ([], [], .error (.notAFunction c.prop)) := by
    unfold runTask
    cases hm : M.member mid c.prop with
    | none => rfl
    | some m =>
      cases m with
      | value a => rfl
      | callable f => rw [hm] at h3; simp [isCallableMem] at h3
  have hd2 : drain M mid (c :: q2) = ([], [], .error (.notAFunction c.prop)) := by
    unfold drain
    rw [hrun]
  have hall : drain M t (q1 ++ c :: q2) = (inv1, tr1, .error (.notAFunction c.prop)) := by
    have h0 := drain_append_ok M q1 (c :: q2) t inv1 tr1 mid h2
    rw [hd2] at h0
    simpa using h0
  have hinv : inv1 = q1 := drain_ok_invoked M q1 t inv1 tr1 mid h2
  constructor
  · rw [execute_result_mk, hall]
  · rw [execute_invoked_mk, hall]
    exact hinv

/-- Claim C10, witness: `toBroken` is callable on `home` when chained twice,
but the first run resolves to `broken`, on which the name is no longer
callable, so the second queued invocation rejects with the `TypeError` even
though it was chainable. -/
theorem drain_time_lookup_rejects_witness :
    (execute demoObj ⟨.home, [⟨"toBroken", []⟩, ⟨"toBroken", []⟩]⟩).result
        = .error (.notAFunction "toBroken") ∧
    (execute demoObj ⟨.home, [⟨"toBroken", []⟩, ⟨"toBroken", []⟩]⟩).invoked
        = [⟨"toBroken", []⟩] :=
  drain_time_lookup_rejects demoObj .home [⟨"toBroken", []⟩] []
    ⟨"toBroken", []⟩ [⟨"toBroken", []⟩] ["toBroken"] .broken rfl rfl rfl

end FluentProxy
